import Mathlib

/-!
Verification development for the `ansible-logs-view` repository.

The Go sources are shallowly embedded as Lean functions:
* `src/parser.go` (`LogParser.ParseFile`) becomes a fold `runParse` over the
  list of input lines with an explicit parser state `PState`; the Go regular
  expressions are implemented as character-list matchers with the exact
  leftmost / lazy / greedy semantics the Go patterns have on these inputs.
* `src/internal/app/tui.go` (the `Model` with `applyFilter`,
  `rebuildFlatNodes` and the `Update` key handlers) becomes a `Model`
  structure with pure state-transition functions.  Go slice aliasing between
  `Model.nodes` and `Model.filteredNodes` is made explicit through an
  `Option` field (`none` = the filtered slice aliases the full node slice).

Machine integers are embedded as `Nat` (all quantities involved are
non-negative counters; where Go computes a possibly negative intermediate
value, `Int` is used and clamped exactly as the Go/bubbles code does).
-/

namespace AnsibleLogsView

/-! ## Go string primitives (ASCII fragment, as used by the sources) -/

/-- `strings.HasPrefix s pre` (byte-wise; characters here). -/
def goHasPrefix (s pre : String) : Bool :=
  pre.data.isPrefixOf s.data

/-- Substring containment on character lists: `strings.Contains`. -/
def containsL (needle : List Char) : List Char → Bool
  | [] => needle.isEmpty
  | c :: cs => needle.isPrefixOf (c :: cs) || containsL needle cs

/-- `strings.Contains s sub`. -/
def goContains (s sub : String) : Bool :=
  containsL sub.data s.data

/-- ASCII lower-casing of one character (fragment of `strings.ToLower`). -/
def charLower (c : Char) : Char :=
  if 'A' ≤ c ∧ c ≤ 'Z' then Char.ofNat (c.toNat + 32) else c

/-- `strings.ToLower` on the ASCII fragment used by the repository. -/
def goToLower (s : String) : String :=
  ⟨s.data.map charLower⟩

/-- The whitespace set of `strings.TrimSpace` restricted to ASCII. -/
def isGoSpace (c : Char) : Bool :=
  c = ' ' || c = '\t' || c = '\n' || c = '\r' || c = '\x0b' || c = '\x0c'

/-- `strings.TrimSpace`. -/
def goTrimSpace (s : String) : String :=
  ⟨((s.data.dropWhile isGoSpace).reverse.dropWhile isGoSpace).reverse⟩

/-- `strings.Join parts sep` (specialised to the uses in `parser.go`). -/
def goJoin (sep : String) : List String → String
  | [] => ""
  | [s] => s
  | s :: rest => s ++ sep ++ goJoin sep rest

/-! ## The regular expressions of `parser.go` as character matchers -/

/-- Does the char list consist of `']'`, `' '`, then one or more `'*'`?
This is the tail `\] \*+$` of the Go task-header pattern. -/
def headerTail : List Char → Bool
  | ']' :: ' ' :: rest => !rest.isEmpty && rest.all (· == '*')
  | _ => false

/-- Lazy group of `^TASK \[(.*?)\] \*+$` after the literal `TASK [`:
shortest prefix whose remainder is `] ` followed by asterisks only. -/
def headerNameChars : List Char → Option (List Char)
  | [] => none
  | c :: cs =>
    if headerTail (c :: cs) then some [] else (headerNameChars cs).map (c :: ·)

/-- Full match of `taskRegex`; `none` when the line does not match (in which
case the Go code `taskRegex.FindStringSubmatch(line)[1]` panics, because the
surrounding branch only checked the `TASK [` prefix). -/
def taskHeaderName (line : String) : Option String :=
  if goHasPrefix line "TASK [" then
    (headerNameChars (line.data.drop 6)).map (fun l => ⟨l⟩)
  else none

/-- Lazy capture up to the first `']'`; `none` when no `']'` follows. -/
def upToClose : List Char → Option (List Char)
  | [] => none
  | c :: cs => if c = ']' then some [] else (upToClose cs).map (c :: ·)

/-- `^<pre>(.*?)\]` for the four status patterns `ok: [` … `failed: [`. -/
def statusCapture (pre line : String) : Option String :=
  if goHasPrefix line pre then
    (upToClose (line.data.drop pre.data.length)).map (fun l => ⟨l⟩)
  else none

/-- Suffix after the leftmost occurrence of `pat` (unanchored literal). -/
def afterFirstL (pat : List Char) : List Char → Option (List Char)
  | [] => if pat.isEmpty then some [] else none
  | c :: cs =>
    if pat.isPrefixOf (c :: cs) then some ((c :: cs).drop pat.length)
    else afterFirstL pat cs

/-- `pathRegex = task path: (.*)`: greedy capture to end of line after the
leftmost occurrence of the literal. -/
def pathMatch (line : String) : Option String :=
  (afterFirstL "task path: ".data line.data).map (fun l => ⟨l⟩)

/-- After a fixed start position, the part ` on (.*?)\]` of `startedRegex`.
The first group grows (regex backtracking) until some ` on ` is followed by
a `']'` further right. -/
def startedSplit : List Char → Option (List Char × List Char)
  | [] => none
  | c :: cs =>
    if " on ".data.isPrefixOf (c :: cs) then
      match upToClose ((c :: cs).drop 4) with
      | some g2 => some ([], g2)
      | none => (startedSplit cs).map (fun p => (c :: p.1, p.2))
    else (startedSplit cs).map (fun p => (c :: p.1, p.2))

/-- Leftmost-match search for `startedRegex = \[started TASK: (.*?) on (.*?)\]`. -/
def startedScan : List Char → Option (List Char × List Char)
  | [] => none
  | c :: cs =>
    if "[started TASK: ".data.isPrefixOf (c :: cs) then
      match startedSplit ((c :: cs).drop "[started TASK: ".data.length) with
      | some p => some p
      | none => startedScan cs
    else startedScan cs

/-- `startedRegex.FindStringSubmatch`: yields (task name, host). -/
def startedMatch (line : String) : Option (String × String) :=
  (startedScan line.data).map (fun p => (⟨p.1⟩, ⟨p.2⟩))

/-- Go `\w` (ASCII word character). -/
def isWordChar (c : Char) : Bool :=
  c.isAlpha || c.isDigit || c = '_'

/-- Matcher for `timeRegex = ^(\w+) (\d+) (\w+) (\d+)  (\d+):(\d+):(\d+)`.
Greedy runs followed by literals that no run character can match, so
maximal-munch is exact.  Returns (day, month name, year, hour, min, sec). -/
def timeMatchL (l : List Char) :
    Option (List Char × List Char × List Char × List Char × List Char × List Char) :=
  let w1 := l.takeWhile isWordChar
  let r1 := l.dropWhile isWordChar
  if w1.isEmpty then none else
  match r1 with
  | ' ' :: r2 =>
    let d1 := r2.takeWhile Char.isDigit
    let r3 := r2.dropWhile Char.isDigit
    if d1.isEmpty then none else
    match r3 with
    | ' ' :: r4 =>
      let w2 := r4.takeWhile isWordChar
      let r5 := r4.dropWhile isWordChar
      if w2.isEmpty then none else
      match r5 with
      | ' ' :: r6 =>
        let d2 := r6.takeWhile Char.isDigit
        let r7 := r6.dropWhile Char.isDigit
        if d2.isEmpty then none else
        match r7 with
        | ' ' :: ' ' :: r8 =>
          let d3 := r8.takeWhile Char.isDigit
          let r9 := r8.dropWhile Char.isDigit
          if d3.isEmpty then none else
          match r9 with
          | ':' :: r10 =>
            let d4 := r10.takeWhile Char.isDigit
            let r11 := r10.dropWhile Char.isDigit
            if d4.isEmpty then none else
            match r11 with
            | ':' :: r12 =>
              let d5 := r12.takeWhile Char.isDigit
              if d5.isEmpty then none
              else some (d1, w2, d2, d3, d4, d5)
            | _ => none
          | _ => none
        | _ => none
      | _ => none
    | _ => none
  | _ => none

/-- The `monthMap` of `parser.go`; `0` plays the role of Go's missing key
(empty string), which the code then defaults to January. -/
def monthLookup : String → Nat
  | "January" => 1 | "February" => 2 | "March" => 3 | "April" => 4
  | "May" => 5 | "June" => 6 | "July" => 7 | "August" => 8
  | "September" => 9 | "October" => 10 | "November" => 11 | "December" => 12
  | _ => 0

/-! ## Time values -/

/-- A Go `time.Time` as far as this program observes it.  The Go zero value
is year 1, January 1, midnight. -/
structure GoTime where
  year : Nat
  month : Nat
  day : Nat
  hour : Nat
  minute : Nat
  second : Nat
deriving Repr, DecidableEq

def GoTime.zero : GoTime := ⟨1, 1, 1, 0, 0, 0⟩

def digitsVal (l : List Char) : Nat :=
  l.foldl (fun a c => a * 10 + (c.toNat - 48)) 0

def isLeap (y : Nat) : Bool :=
  y % 4 == 0 && (y % 100 != 0 || y % 400 == 0)

def daysInMonth (m y : Nat) : Nat :=
  if m = 2 then (if isLeap y then 29 else 28)
  else if m = 4 ∨ m = 6 ∨ m = 9 ∨ m = 11 then 30
  else 31

/-- Success condition of Go `time.Parse("2006-01-02 15:04:05", …)` on the
string `fmt.Sprintf("%s-%s-%s %s:%s:%s", year, monthNum, day, hour, min,
sec)` built in `parser.go`: the fixed-width layout fields demand exact digit
counts (the non-zero-padded hour accepts one or two digits), and the parsed
values must be in calendar range. -/
def goTimeParse (y d h mi se : List Char) (month : Nat) : Option GoTime :=
  if y.length = 4 ∧ d.length = 2 ∧ (h.length = 1 ∨ h.length = 2) ∧
     mi.length = 2 ∧ se.length = 2 then
    let yv := digitsVal y
    let dv := digitsVal d
    let hv := digitsVal h
    let miv := digitsVal mi
    let sev := digitsVal se
    if 1 ≤ dv ∧ dv ≤ daysInMonth month yv ∧ hv ≤ 23 ∧ miv ≤ 59 ∧ sev ≤ 59 then
      some ⟨yv, month, dv, hv, miv, sev⟩
    else none
  else none

/-! ## The Task record and the parser state machine -/

/-- `Task` from `task.go` (the revision with `Diff` and `RawText`). -/
structure Task where
  ID : Nat
  Description : String
  StartTime : GoTime
  Status : String
  Host : String
  Path : String
  Diff : String
  RawText : String
deriving Repr, DecidableEq

/-- The mutable loop state of `LogParser.ParseFile`. -/
structure PState where
  tasks : List Task
  currentTask : Option Task
  taskID : Nat
  inDiffSection : Bool
  diffLines : List String
deriving Repr, DecidableEq

def initPState : PState :=
  { tasks := [], currentTask := none, taskID := 1
  , inDiffSection := false, diffLines := [] }

/-- The three identical "save the diff to the current task" blocks of
`ParseFile` (lines 77-83, 135-141, 221-227 of `parser.go`). -/
def flushDiff (t : Task) (diffLines : List String) : Task :=
  if diffLines.isEmpty then t
  else if t.Diff ≠ "" then { t with Diff := t.Diff ++ "\n" ++ goJoin "\n" diffLines }
  else { t with Diff := goJoin "\n" diffLines }

/-- The fresh `currentTask` built on a task-header line. -/
def newTask (id : Nat) (name line : String) : Task :=
  { ID := id, Description := goTrimSpace name, StartTime := GoTime.zero
  , Status := "unknown", Host := "", Path := "", Diff := ""
  , RawText := line ++ "\n" }

/-- Processing of one non-header line against the current task
(`parser.go` lines 118-215).  The line has already failed the `TASK [`
prefix test.  Returns the updated task, diff flag, and pending diff lines. -/
def updateTask (inDiff : Bool) (diffLines : List String) (t0 : Task)
    (line : String) : Task × Bool × List String :=
  let t := { t0 with RawText := t0.RawText ++ (line ++ "\n") }
  if goHasPrefix line "--- before:" then
    (t, true, [line])
  else if inDiff then
    if line = "" || goHasPrefix line "TASK [" || goHasPrefix line "ok:" ||
       goHasPrefix line "changed:" || goHasPrefix line "skipping:" ||
       goHasPrefix line "failed:" then
      -- the terminating line closes the diff and is then dropped:
      -- the status branches below are NOT revisited for it
      (flushDiff t diffLines, false, [])
    else
      (t, true, diffLines ++ [line])
  else match pathMatch line with
  | some p => ({ t with Path := p }, inDiff, diffLines)
  | none =>
    match timeMatchL line.data with
    | some (d, mo, y, h, mi, se) =>
      let mn := monthLookup ⟨mo⟩
      let mn := if mn = 0 then 1 else mn
      (match goTimeParse y d h mi se mn with
       | some gt => ({ t with StartTime := gt }, inDiff, diffLines)
       | none => (t, inDiff, diffLines))
    | none =>
      match startedMatch line with
      | some pr => ({ t with Host := pr.2 }, inDiff, diffLines)
      | none =>
        match statusCapture "ok: [" line with
        | some h => ({ t with Status := "ok", Host := h }, inDiff, diffLines)
        | none =>
          match statusCapture "changed: [" line with
          | some h => ({ t with Status := "changed", Host := h }, inDiff, diffLines)
          | none =>
            match statusCapture "skipping: [" line with
            | some h => ({ t with Status := "skipping", Host := h }, inDiff, diffLines)
            | none =>
              match statusCapture "failed: [" line with
              | some h => ({ t with Status := "failed", Host := h }, inDiff, diffLines)
              | none => (t, inDiff, diffLines)

/-- One iteration of the scanner loop of `ParseFile`.  `none` models the Go
panic on `taskRegex.FindStringSubmatch(line)[1]` when a line has the
`TASK [` prefix but does not match the full header pattern. -/
def processLine (s : PState) (line : String) : Option PState :=
  if goHasPrefix line "TASK [" then
    match taskHeaderName line with
    | none => none
    | some name =>
      some { tasks := (match s.currentTask with
                       | none => s.tasks
                       | some t => s.tasks ++ [flushDiff t s.diffLines])
           , currentTask := some (newTask s.taskID name line)
           , taskID := s.taskID + 1
           , inDiffSection := s.inDiffSection  -- Go leaves the flag untouched here
           , diffLines := [] }
  else match s.currentTask with
  | none => some s
  | some t0 =>
    let r := updateTask s.inDiffSection s.diffLines t0 line
    some { s with currentTask := some r.1, inDiffSection := r.2.1, diffLines := r.2.2 }

/-- The scanner loop. -/
def runParse (s : PState) : List String → Option PState
  | [] => some s
  | l :: ls =>
    match processLine s l with
    | none => none
    | some s' => runParse s' ls

/-- The post-loop flush of the last open task (`parser.go` lines 218-242). -/
def finalizeTasks (s : PState) : List Task :=
  match s.currentTask with
  | none => s.tasks
  | some t => s.tasks ++ [flushDiff t s.diffLines]

/-- The task list `ParseFile` produces from a line stream, `none` on panic. -/
def parseFileTasks (lines : List String) : Option (List Task) :=
  (runParse initPState lines).map finalizeTasks

/-- Outcome of `ParseFile`: Go's `([]Task, error)` pair plus the panic case. -/
inductive ParseResult where
  | ok (tasks : List Task)
  | err (msg : String)
  | panicked
deriving Repr, DecidableEq

def ParseResult.isErrR : ParseResult → Bool
  | .err _ => true
  | _ => false

/-- `LogParser.ParseFile` including its I/O environment: `openOk` is success
of `os.Open(filename)`, `debugOk` success of opening `debug.log`, `lines`
the lines the scanner delivered, and `scanErr` whether `scanner.Err()` is
non-nil after the loop. -/
def ParseFile (openOk debugOk : Bool) (lines : List String)
    (scanErr : Bool) : ParseResult :=
  if !openOk then .err "error opening file"
  else if !debugOk then .err "error opening debug log file"
  else
    match runParse initPState lines with
    | none => .panicked
    | some st => if scanErr then .err "error reading file" else .ok (finalizeTasks st)

/-! ## The TUI model of `src/internal/app/tui.go` -/

/-- `TreeNode` from `tui.go`. -/
structure TreeNode where
  ID : Nat
  Name : String
  Description : String
  StartTime : GoTime
  Status : String
  Host : String
  Path : String
  Diff : String
  RawText : String
  IsExpanded : Bool
deriving Repr, DecidableEq

/-- `convertTasksToNodes`. -/
def convertTasksToNodes (tasks : List Task) : List TreeNode :=
  tasks.map fun t =>
    { ID := t.ID, Name := t.Description, Description := t.RawText
    , StartTime := t.StartTime, Status := t.Status, Host := t.Host
    , Path := t.Path, Diff := t.Diff, RawText := t.RawText
    , IsExpanded := false }

def pad2 (n : Nat) : String :=
  if n < 10 then "0" ++ toString n else toString n

def pad4 (n : Nat) : String :=
  if n < 10 then "000" ++ toString n
  else if n < 100 then "00" ++ toString n
  else if n < 1000 then "0" ++ toString n
  else toString n

/-- Go `t.Format("2006-01-02 15:04:05")`. -/
def fmtFull (t : GoTime) : String :=
  pad4 t.year ++ "-" ++ pad2 t.month ++ "-" ++ pad2 t.day ++ " " ++
  pad2 t.hour ++ ":" ++ pad2 t.minute ++ ":" ++ pad2 t.second

/-- Go `t.Format("2006-01-02")`. -/
def fmtDate (t : GoTime) : String :=
  pad4 t.year ++ "-" ++ pad2 t.month ++ "-" ++ pad2 t.day

/-- Go `t.Format("15:04:05")`. -/
def fmtTime (t : GoTime) : String :=
  pad2 t.hour ++ ":" ++ pad2 t.minute ++ ":" ++ pad2 t.second

/-- The per-node test inside `applyFilter` (term already lower-cased). -/
def nodeMatches (term : String) (n : TreeNode) : Bool :=
  goContains (goToLower n.Name) term ||
  goContains (goToLower n.Status) term ||
  goContains (goToLower n.Host) term ||
  goContains (goToLower n.Path) term ||
  goContains (fmtFull n.StartTime) term ||
  goContains (fmtDate n.StartTime) term ||
  goContains (fmtTime n.StartTime) term

/-- `flatNode` from `tui.go` (the node pointer is embedded by value; the
flattening below copies the then-current contents, as every read in the Go
code happens right after a rebuild). -/
structure FlatNode where
  node : TreeNode
  depth : Nat
deriving Repr, DecidableEq

/-- The slice of the bubbles `viewport.Model` that the core observes:
scroll offset, height, and the number of content lines last set. -/
structure Viewport where
  yOffset : Nat
  height : Nat
  contentLines : Nat
deriving Repr, DecidableEq

/-- bubbles `viewport.SetYOffset`: clamp into `[0, max(0, lines-height)]`. -/
def Viewport.setYOff (vp : Viewport) (n : Int) : Viewport :=
  { vp with yOffset :=
      (min (max n 0) (max ((vp.contentLines : Int) - (vp.height : Int)) 0)).toNat }

/-- The `Model` of `internal/app/tui.go` restricted to the fields the core
logic reads and writes.  Go's `filteredNodes` slice either aliases `nodes`
(after an empty filter term: `m.filteredNodes = m.nodes`) or is a freshly
built slice of copies; the alias case is `filtered = none`. -/
structure Model where
  nodes : List TreeNode
  filtered : Option (List TreeNode)
  flatNodes : List FlatNode
  selected : Nat
  expandedNodeCount : Nat
  expandedNodeSize : Nat
  nodesViewport : Viewport
deriving Repr, DecidableEq

/-- The list `m.filteredNodes` denotes. -/
def Model.filteredNodes (m : Model) : List TreeNode :=
  m.filtered.getD m.nodes

/-- Number of `"\n"` characters `renderNodeList` writes: one line per flat
node plus a 4-line inline detail block for each expanded node with a
non-blank description (the lipgloss styles used are line-count preserving
for lines that fit the width). -/
def renderLineCount (flat : List FlatNode) : Nat :=
  (flat.map (fun fn =>
    1 + (if fn.node.IsExpanded && goTrimSpace fn.node.Description ≠ "" then 4 else 0))).sum

/-- `Model.rebuildFlatNodes`. -/
def rebuildFlatNodes (m : Model) : Model :=
  let flat := m.filteredNodes.map (fun n => FlatNode.mk n 0)
  let cnt := (flat.filter (fun fn => fn.node.IsExpanded)).length
  let sel := if m.selected ≥ flat.length then flat.length - 1 else m.selected
  { m with flatNodes := flat, expandedNodeCount := cnt, selected := sel }

/-- `Model.applyFilter` (`tui.go` lines 647-677).  The viewport receives the
trimmed node list (`SetContent` + `GotoTop`). -/
def applyFilter (term0 : String) (m : Model) : Model :=
  let term := goToLower term0
  let m1 := { m with filtered :=
                if term = "" then none
                else some (m.nodes.filter (nodeMatches term)) }
  let m2 := rebuildFlatNodes m1
  let sel := if m2.flatNodes.length = 0 then 0
             else if m2.selected ≥ m2.flatNodes.length then m2.flatNodes.length - 1
             else m2.selected
  let lines := max (renderLineCount m2.flatNodes) 1
  { m2 with selected := sel
          , nodesViewport := { m2.nodesViewport with contentLines := lines, yOffset := 0 } }

/-- The `"down"`/`"j"` branch of `Model.Update`: advance the selection, then
`SetYOffset` when the selection (plus the rows consumed by expanded nodes)
leaves the window, then `setNodeListContentPreserve` with the untrimmed
node list, which re-clamps the offset against the new line count. -/
def moveDown (m : Model) : Model :=
  if m.selected < m.flatNodes.length - 1 then
    let sel := m.selected + 1
    let vp := m.nodesViewport
    let vp := if sel + m.expandedNodeCount * m.expandedNodeSize ≥ vp.yOffset + vp.height
              then vp.setYOff ((sel : Int) - (vp.height : Int) +
                     (m.expandedNodeCount * m.expandedNodeSize : Nat) + 1)
              else vp
    let lines := renderLineCount m.flatNodes + 1
    let maxOff := if lines > vp.height then lines - vp.height else 0
    let cur := min vp.yOffset maxOff
    { m with selected := sel
           , nodesViewport := { vp with contentLines := lines, yOffset := cur } }
  else m

def toggleNode (n : TreeNode) : TreeNode :=
  { n with IsExpanded := !n.IsExpanded }

/-- In-place update of one list element (Go writes through the pointer
`m.flatNodes[m.selected].node`, which points into the backing array of
`m.filteredNodes`). -/
def modifyIdx (f : TreeNode → TreeNode) : Nat → List TreeNode → List TreeNode
  | _, [] => []
  | 0, n :: ns => f n :: ns
  | i + 1, n :: ns => n :: modifyIdx f i ns

/-- The `"enter"`/`" "` branch of `Model.Update`: flip `IsExpanded` through
the flat-node pointer (hitting `nodes` itself when `filteredNodes` aliases
it), rebuild, run `updateViewports` (which re-sets the content and calls
`GotoTop`), restore the selection, then bring it back into view. -/
def toggleSelected (m : Model) : Model :=
  if m.flatNodes.length > 0 then
    let m1 := match m.filtered with
      | none => { m with nodes := modifyIdx toggleNode m.selected m.nodes }
      | some fl => { m with filtered := some (modifyIdx toggleNode m.selected fl) }
    let oldSelected := m.selected
    let m2 := rebuildFlatNodes m1
    let lines := max (renderLineCount m2.flatNodes) 1
    let vp0 : Viewport := { m2.nodesViewport with contentLines := lines, yOffset := 0 }
    let m3 : Model := { m2 with selected := oldSelected, nodesViewport := vp0 }
    let vp := if m3.selected + m3.expandedNodeCount * m3.expandedNodeSize ≥
                 vp0.yOffset + vp0.height
              then vp0.setYOff ((m3.selected : Int) - (vp0.height : Int) +
                     (m3.expandedNodeCount * m3.expandedNodeSize : Nat) + 1)
              else vp0
    { m3 with nodesViewport := vp }
  else m

/-- `NewModel` restricted to the core state: the filtered slice starts as an
alias of `nodes`, then `rebuildFlatNodes` and `updateViewports` run.  The
viewport height is a parameter here (in Go it is derived from the terminal
size by `updateViewports`, a computation the spec delegates to the
presentation layer). -/
def newModel (tasks : List Task) (vpHeight : Nat) : Model :=
  let nodes := convertTasksToNodes tasks
  let m := rebuildFlatNodes
    { nodes := nodes, filtered := none, flatNodes := [], selected := 0
    , expandedNodeCount := 0, expandedNodeSize := 4
    , nodesViewport := { yOffset := 0, height := vpHeight, contentLines := 0 } }
  let lines := max (renderLineCount m.flatNodes) 1
  { m with nodesViewport := { m.nodesViewport with contentLines := lines, yOffset := 0 } }

/-- Spec-side: number of expanded nodes among flat indices `[lo, hi)`.
Used to state the spec's "expanded nodes between offset and selection". -/
def countExpandedBetween (flat : List FlatNode) (lo hi : Nat) : Nat :=
  (((flat.drop lo).take (hi - lo)).filter (fun fn => fn.node.IsExpanded)).length

/-! ## Spec-side decomposition of the input into task blocks

These definitions follow the words of the spec ("the lines from its header
(inclusive) through the line preceding the next header"), to be compared
with what the parser embedded above actually produces. -/

/-- A line opens a task block exactly when the parser dispatches on it as a
header (`strings.HasPrefix(line, "TASK [")`). -/
def isHeaderLine (l : String) : Bool := goHasPrefix l "TASK ["

/-- One step of grouping the line stream into blocks: a header line closes
the open block (if any) and opens a new one; other lines extend the open
block and are discarded before the first header. -/
def specBlocksStep (p : List (List String) × Option (List String))
    (line : String) : List (List String) × Option (List String) :=
  if isHeaderLine line then (p.1 ++ p.2.toList, some [line])
  else match p.2 with
  | none => p
  | some b => (p.1, some (b ++ [line]))

/-- The blocks of an input: for each header line, the lines from it
(inclusive) up to the line preceding the next header, or end of input. -/
def specBlocks (lines : List String) : List (List String) :=
  let p := lines.foldl specBlocksStep ([], none)
  p.1 ++ p.2.toList

/-- The verbatim text of a block: each line followed by a newline. -/
def blockText : List String → String
  | [] => ""
  | l :: ls => (l ++ "\n") ++ blockText ls

/-- A line that matches neither a status pattern nor the started-TASK
pattern, i.e. one that can change neither `Status` nor `Host`. -/
def cleanLine (l : String) : Bool :=
  (startedMatch l).isNone && (statusCapture "ok: [" l).isNone &&
  (statusCapture "changed: [" l).isNone && (statusCapture "skipping: [" l).isNone &&
  (statusCapture "failed: [" l).isNone

/-- A block none of whose lines after the header can set `Status` or
`Host`. -/
def cleanBlock (b : List String) : Bool :=
  (b.drop 1).all cleanLine

/-- The five status strings the parser can produce. -/
def parserStatuses : List String :=
  ["unknown", "ok", "changed", "skipping", "failed"]

/-! ## Concrete inputs used by witnesses and counterexamples -/

/-- A small, already parsed pair of tasks. -/
def demoTasksAB : List Task :=
  [ { ID := 1, Description := "alpha", StartTime := GoTime.zero, Status := "unknown"
    , Host := "", Path := "", Diff := "", RawText := "TASK [alpha] ****\n" }
  , { ID := 2, Description := "beta", StartTime := GoTime.zero, Status := "unknown"
    , Host := "", Path := "", Diff := "", RawText := "TASK [beta] ****\n" } ]

/-- A model over `demoTasksAB` whose selection has been moved to index 1. -/
def mSel1 : Model := { newModel demoTasksAB 10 with selected := 1 }

/-- The initial model over `demoTasksAB`. -/
def mAB : Model := newModel demoTasksAB 10

/-- A plain collapsed node as the node list of the scrolling scenarios. -/
def mkPlainNode (i : Nat) : TreeNode :=
  { ID := i + 1, Name := "task", Description := "TASK x\n", StartTime := GoTime.zero
  , Status := "unknown", Host := "", Path := "", Diff := ""
  , RawText := "TASK x\n", IsExpanded := false }

/-- Seventeen collapsed nodes in a height-10 viewport (spec Scenario C). -/
def m9ScenC : Model :=
  let m := rebuildFlatNodes
    { nodes := (List.range 17).map mkPlainNode, filtered := none, flatNodes := []
    , selected := 0, expandedNodeCount := 0, expandedNodeSize := 4
    , nodesViewport := { yOffset := 0, height := 10, contentLines := 0 } }
  { m with nodesViewport :=
      { m.nodesViewport with contentLines := max (renderLineCount m.flatNodes) 1 } }

/-- Twenty nodes, only the last one expanded, selection at flat index 5,
height-10 viewport: the sole expanded node lies entirely below the window. -/
def m9Glob : Model :=
  let m := rebuildFlatNodes
    { nodes := (List.range 20).map (fun i =>
        if i = 19 then { mkPlainNode i with IsExpanded := true } else mkPlainNode i)
    , filtered := none, flatNodes := [], selected := 5
    , expandedNodeCount := 0, expandedNodeSize := 4
    , nodesViewport := { yOffset := 0, height := 10, contentLines := 0 } }
  { m with nodesViewport :=
      { m.nodesViewport with contentLines := max (renderLineCount m.flatNodes) 1 } }

/-- Iterated application of a model transition. -/
def iterApply (f : Model → Model) : Nat → Model → Model
  | 0, m => m
  | n + 1, m => iterApply f n (f m)

/-- Input lines for the positive parser witnesses: junk before the first
header, two tasks, a status line for each. -/
def demoLines : List String :=
  ["PLAY [all] *********", "TASK [Install pkg] ****", "ok: [hostA]",
   "TASK [Copy file] ****", "changed: [hostB]"]

/-- Input lines whose single task block has no status and no started line. -/
def demoLinesClean : List String :=
  ["TASK [a] ***", "some output"]

/-- The task list the parser produces from `demoLines`. -/
def demoParsed : List Task :=
  [ { ID := 1, Description := "Install pkg", StartTime := GoTime.zero
    , Status := "ok", Host := "hostA", Path := "", Diff := ""
    , RawText := "TASK [Install pkg] ****\nok: [hostA]\n" }
  , { ID := 2, Description := "Copy file", StartTime := GoTime.zero
    , Status := "changed", Host := "hostB", Path := "", Diff := ""
    , RawText := "TASK [Copy file] ****\nchanged: [hostB]\n" } ]

/-- The task list the parser produces from `demoLinesClean`. -/
def demoParsedClean : List Task :=
  [ { ID := 1, Description := "a", StartTime := GoTime.zero
    , Status := "unknown", Host := "", Path := "", Diff := ""
    , RawText := "TASK [a] ***\nsome output\n" } ]

/-- The node `convertTasksToNodes` builds from the first demo task. -/
def nodeAlpha : TreeNode :=
  { ID := 1, Name := "alpha", Description := "TASK [alpha] ****\n"
  , StartTime := GoTime.zero, Status := "unknown", Host := "", Path := ""
  , Diff := "", RawText := "TASK [alpha] ****\n", IsExpanded := false }

/-! # Helper lemmas -/

theorem strData_append (a b : String) : (a ++ b).data = a.data ++ b.data := rfl

theorem strExt {a b : String} (h : a.data = b.data) : a = b := by
  cases a; cases b; cases h; rfl

theorem strAppend_empty (s : String) : s ++ "" = s := by
  apply strExt; rw [strData_append]; exact List.append_nil _

theorem strEmpty_append (s : String) : "" ++ s = s := by
  apply strExt; rw [strData_append]; rfl

theorem strAppend_assoc (a b c : String) : a ++ b ++ c = a ++ (b ++ c) := by
  apply strExt; simp only [strData_append, List.append_assoc]

theorem blockText_snoc (b : List String) (l : String) :
    blockText (b ++ [l]) = blockText b ++ (l ++ "\n") := by
  induction b with
  | nil => simp [blockText, strAppend_empty, strEmpty_append]
  | cons x xs ih =>
    show (x ++ "\n") ++ blockText (xs ++ [l]) = ((x ++ "\n") ++ blockText xs) ++ (l ++ "\n")
    rw [ih]
    simp only [strAppend_assoc]

/-- `flushDiff` only touches the `Diff` field. -/
theorem flushDiff_fields (t : Task) (d : List String) :
    (flushDiff t d).ID = t.ID ∧ (flushDiff t d).Description = t.Description ∧
    (flushDiff t d).RawText = t.RawText ∧ (flushDiff t d).Status = t.Status ∧
    (flushDiff t d).Host = t.Host := by
  unfold flushDiff
  split
  · exact ⟨rfl, rfl, rfl, rfl, rfl⟩
  · split <;> exact ⟨rfl, rfl, rfl, rfl, rfl⟩

/-- Field behaviour of one non-header line step: the task identity and the
raw text accumulation are fixed, the status can only move into the
four-element status set, and a clean line changes neither status nor host. -/
theorem updateTask_core (inD : Bool) (dl : List String) (t0 : Task) (l : String) :
    (updateTask inD dl t0 l).1.ID = t0.ID ∧
    (updateTask inD dl t0 l).1.Description = t0.Description ∧
    (updateTask inD dl t0 l).1.RawText = t0.RawText ++ (l ++ "\n") ∧
    ((updateTask inD dl t0 l).1.Status = t0.Status ∨
      (updateTask inD dl t0 l).1.Status ∈ (["ok", "changed", "skipping", "failed"] : List String)) ∧
    (cleanLine l = true → (updateTask inD dl t0 l).1.Status = t0.Status ∧
      (updateTask inD dl t0 l).1.Host = t0.Host) := by
  obtain ⟨f1, f2, f3, f4, f5⟩ :=
    flushDiff_fields { t0 with RawText := t0.RawText ++ (l ++ "\n") } dl
  simp only [updateTask]
  split
  · exact ⟨rfl, rfl, rfl, Or.inl rfl, fun _ => ⟨rfl, rfl⟩⟩
  · split
    · split
      · exact ⟨f1, f2, f3, Or.inl f4, fun _ => ⟨f4, f5⟩⟩
      · exact ⟨rfl, rfl, rfl, Or.inl rfl, fun _ => ⟨rfl, rfl⟩⟩
    · split
      · exact ⟨rfl, rfl, rfl, Or.inl rfl, fun _ => ⟨rfl, rfl⟩⟩
      · split
        · split
          · exact ⟨rfl, rfl, rfl, Or.inl rfl, fun _ => ⟨rfl, rfl⟩⟩
          · exact ⟨rfl, rfl, rfl, Or.inl rfl, fun _ => ⟨rfl, rfl⟩⟩
        · split
          · rename_i heq
            exact ⟨rfl, rfl, rfl, Or.inl rfl,
              fun hc => absurd hc (by simp [cleanLine, heq])⟩
          · split
            · rename_i heq
              exact ⟨rfl, rfl, rfl, Or.inr (by simp),
                fun hc => absurd hc (by simp [cleanLine, heq])⟩
            · split
              · rename_i heq
                exact ⟨rfl, rfl, rfl, Or.inr (by simp),
                  fun hc => absurd hc (by simp [cleanLine, heq])⟩
              · split
                · rename_i heq
                  exact ⟨rfl, rfl, rfl, Or.inr (by simp),
                    fun hc => absurd hc (by simp [cleanLine, heq])⟩
                · split
                  · rename_i heq
                    exact ⟨rfl, rfl, rfl, Or.inr (by simp),
                      fun hc => absurd hc (by simp [cleanLine, heq])⟩
                  · exact ⟨rfl, rfl, rfl, Or.inl rfl, fun _ => ⟨rfl, rfl⟩⟩

/-- A non-header line never panics; it leaves the task list and the ID
counter unchanged, and rewrites the open task through `updateTask`. -/
theorem processLine_nonheader {s : PState} {l : String}
    (h : goHasPrefix l "TASK [" = false) :
    (s.currentTask = none → processLine s l = some s) ∧
    (∀ t0, s.currentTask = some t0 →
      processLine s l = some { s with
        currentTask := some (updateTask s.inDiffSection s.diffLines t0 l).1
        , inDiffSection := (updateTask s.inDiffSection s.diffLines t0 l).2.1
        , diffLines := (updateTask s.inDiffSection s.diffLines t0 l).2.2 }) := by
  constructor
  · intro hc
    simp [processLine, h, hc]
  · intro t0 hc
    simp [processLine, h, hc]

/-- A header line that matches the full header pattern produces exactly the
flush-and-open transition. -/
theorem processLine_header {s : PState} {l : String} {name : String}
    (hp : goHasPrefix l "TASK [" = true) (h : taskHeaderName l = some name) :
    processLine s l = some
      { tasks := (match s.currentTask with
                  | none => s.tasks
                  | some t => s.tasks ++ [flushDiff t s.diffLines])
      , currentTask := some (newTask s.taskID name l)
      , taskID := s.taskID + 1
      , inDiffSection := s.inDiffSection
      , diffLines := [] } := by
  simp [processLine, hp, h]

theorem blockText_single (l : String) : blockText [l] = l ++ "\n" := by
  simp [blockText, strAppend_empty]

/-- Invariant transport for the raw-text relation: running the parser and
folding the spec-side block grouping stay in lockstep. -/
theorem runParse_raw (lines : List String) :
    ∀ (s : PState) (p : List (List String) × Option (List String)) (s' : PState),
      s.tasks.map Task.RawText = p.1.map blockText →
      s.currentTask.map Task.RawText = p.2.map blockText →
      runParse s lines = some s' →
      s'.tasks.map Task.RawText = (lines.foldl specBlocksStep p).1.map blockText ∧
      s'.currentTask.map Task.RawText = (lines.foldl specBlocksStep p).2.map blockText := by
  induction lines with
  | nil =>
    intro s p s' h1 h2 hr
    simp only [runParse, Option.some.injEq] at hr
    subst hr
    exact ⟨h1, h2⟩
  | cons l ls ih =>
    intro s p s' h1 h2 hr
    simp only [runParse] at hr
    cases hp : processLine s l with
    | none => rw [hp] at hr; exact absurd hr (by simp)
    | some s1 =>
      rw [hp] at hr
      simp only [List.foldl_cons]
      by_cases hh : goHasPrefix l "TASK [" = true
      · -- header line
        have hstep : specBlocksStep p l = (p.1 ++ p.2.toList, some [l]) := by
          simp [specBlocksStep, isHeaderLine, hh]
        rw [hstep]
        cases ht : taskHeaderName l with
        | none =>
          rw [processLine, if_pos hh, ht] at hp
          exact absurd hp (by simp)
        | some name =>
          rw [processLine_header hh ht] at hp
          injection hp with hp
          subst hp
          cases hc : s.currentTask with
          | none =>
            rw [hc] at h2
            have hp2 : p.2 = none := by
              cases hpp : p.2 with
              | none => rfl
              | some b => rw [hpp] at h2; exact absurd h2 (by simp)
            refine ih _ _ _ ?_ ?_ hr
            · simp [hc, hp2, h1]
            · simp [newTask, blockText_single]
          | some t =>
            rw [hc] at h2
            cases hpp : p.2 with
            | none => rw [hpp] at h2; exact absurd h2 (by simp)
            | some b =>
              rw [hpp] at h2
              simp at h2
              refine ih _ _ _ ?_ ?_ hr
              · simp only [hc]
                rw [List.map_append, h1]
                simp [(flushDiff_fields t s.diffLines).2.2.1, h2]
              · simp [newTask, blockText_single]
      · -- non-header line
        have hh' : goHasPrefix l "TASK [" = false := by
          cases hb : goHasPrefix l "TASK [" with
          | false => rfl
          | true => exact absurd hb hh
        have hstep : specBlocksStep p l =
            (match p.2 with | none => p | some b => (p.1, some (b ++ [l]))) := by
          simp [specBlocksStep, isHeaderLine, hh']
        cases hc : s.currentTask with
        | none =>
          have hp2 : p.2 = none := by
            rw [hc] at h2
            cases hpp : p.2 with
            | none => rfl
            | some b => rw [hpp] at h2; exact absurd h2 (by simp)
          rw [(processLine_nonheader hh').1 hc] at hp
          injection hp with hp
          subst hp
          rw [hstep, hp2]
          exact ih _ _ _ h1 h2 hr
        | some t0 =>
          rw [hc] at h2
          cases hpp : p.2 with
          | none => rw [hpp] at h2; exact absurd h2 (by simp)
          | some b =>
            rw [hpp] at h2
            simp at h2
            rw [(processLine_nonheader hh').2 t0 hc] at hp
            injection hp with hp
            subst hp
            rw [hstep, hpp]
            refine ih _ _ _ (by simpa using h1) ?_ hr
            show some ((updateTask s.inDiffSection s.diffLines t0 l).1.RawText) =
              some (blockText (b ++ [l]))
            rw [(updateTask_core s.inDiffSection s.diffLines t0 l).2.2.1, h2, blockText_snoc]

/-- C3.  Each parsed Task's RawText is exactly the newline-terminated
concatenation of the lines of its block: from its header line (inclusive)
to the line preceding the next header, or to end of input for the last
task.  No line between two headers is missing or duplicated. -/
theorem C3_rawtext_roundtrip :
    ∀ (lines : List String) (ts : List Task), parseFileTasks lines = some ts →
      ts.map Task.RawText = (specBlocks lines).map blockText := by
  intro lines ts h
  unfold parseFileTasks at h
  cases hr : runParse initPState lines with
  | none => rw [hr] at h; exact absurd h (by simp)
  | some st =>
    rw [hr] at h
    simp at h
    subst h
    obtain ⟨h1, h2⟩ := runParse_raw lines initPState ([], none) st rfl rfl hr
    unfold specBlocks finalizeTasks
    cases hc : st.currentTask with
    | none =>
      rw [hc] at h2
      cases hpp : (List.foldl specBlocksStep ([], none) lines).2 with
      | none => simp only [hpp, Option.toList_none, List.append_nil]; exact h1
      | some b => rw [hpp] at h2; exact absurd h2 (by simp)
    | some t =>
      rw [hc] at h2
      cases hpp : (List.foldl specBlocksStep ([], none) lines).2 with
      | none => rw [hpp] at h2; exact absurd h2 (by simp)
      | some b =>
        rw [hpp] at h2
        simp at h2
        simp only [hpp, Option.toList_some, List.map_append, List.map_cons, List.map_nil]
        rw [h1]
        simp [(flushDiff_fields t st.diffLines).2.2.1, h2]

/-- Witness for C3 at the concrete input `demoLines`. -/
theorem C3_rawtext_roundtrip_witness :
    demoParsed.map Task.RawText = (specBlocks demoLines).map blockText :=
  C3_rawtext_roundtrip demoLines demoParsed (by decide)

/-- Invariant transport for task IDs: the finished tasks carry `1..k`, an
open task carries `k+1`, and the ID counter sits one past the last
assignment. -/
theorem runParse_ids (lines : List String) :
    ∀ (s s' : PState),
      s.tasks.map Task.ID = List.range' 1 s.tasks.length →
      (∀ t, s.currentTask = some t → t.ID = s.tasks.length + 1) →
      s.taskID = s.tasks.length + s.currentTask.toList.length + 1 →
      runParse s lines = some s' →
      s'.tasks.map Task.ID = List.range' 1 s'.tasks.length ∧
      (∀ t, s'.currentTask = some t → t.ID = s'.tasks.length + 1) ∧
      s'.taskID = s'.tasks.length + s'.currentTask.toList.length + 1 := by
  induction lines with
  | nil =>
    intro s s' h1 h2 h3 hr
    simp only [runParse, Option.some.injEq] at hr
    subst hr
    exact ⟨h1, h2, h3⟩
  | cons l ls ih =>
    intro s s' h1 h2 h3 hr
    simp only [runParse] at hr
    cases hp : processLine s l with
    | none => rw [hp] at hr; exact absurd hr (by simp)
    | some s1 =>
      rw [hp] at hr
      by_cases hh : goHasPrefix l "TASK [" = true
      · cases ht : taskHeaderName l with
        | none =>
          rw [processLine, if_pos hh, ht] at hp
          exact absurd hp (by simp)
        | some name =>
          rw [processLine_header hh ht] at hp
          injection hp with hp
          subst hp
          cases hc : s.currentTask with
          | none =>
            simp only [hc, Option.toList_none, List.length_nil] at h3
            refine ih _ _ ?_ ?_ ?_ hr
            · simpa only [hc] using h1
            · intro t htc
              simp only [hc] at htc ⊢
              injection htc with htc
              subst htc
              simpa [newTask] using h3
            · simp only [hc, Option.toList_some, List.length_cons, List.length_nil]
              omega
          | some t =>
            simp only [hc, Option.toList_some, List.length_cons, List.length_nil] at h3
            refine ih _ _ ?_ ?_ ?_ hr
            · simp only [hc, List.map_append, List.length_append, List.map_cons,
                List.map_nil, List.length_cons, List.length_nil]
              rw [h1, (flushDiff_fields t s.diffLines).1, h2 t hc]
              rw [List.range'_1_concat]
              simp [Nat.add_comm]
            · intro u huc
              simp only [hc] at huc ⊢
              injection huc with huc
              subst huc
              simp only [newTask, List.length_append, List.length_cons, List.length_nil]
              omega
            · simp only [hc, List.length_append, List.length_cons, List.length_nil,
                Option.toList_some]
              omega
      · have hh' : goHasPrefix l "TASK [" = false := by
          cases hb : goHasPrefix l "TASK [" with
          | false => rfl
          | true => exact absurd hb hh
        cases hc : s.currentTask with
        | none =>
          rw [(processLine_nonheader hh').1 hc] at hp
          injection hp with hp
          subst hp
          exact ih _ _ h1 h2 h3 hr
        | some t0 =>
          rw [(processLine_nonheader hh').2 t0 hc] at hp
          injection hp with hp
          subst hp
          simp only [hc, Option.toList_some, List.length_cons, List.length_nil] at h3
          refine ih _ _ (by simpa using h1) ?_ ?_ hr
          · intro u huc
            simp only at huc
            injection huc with huc
            subst huc
            simpa [(updateTask_core s.inDiffSection s.diffLines t0 l).1] using h2 t0 hc
          · simp only [Option.toList_some, List.length_cons, List.length_nil]
            omega

/-- C4.  Parsed tasks carry IDs `1..N`, strictly increasing in file order,
and the list `applyFilter` selects is a subsequence of the full node list,
preserving the relative order of the surviving entries. -/
theorem C4_ids_and_filter_order :
    (∀ (lines : List String) (ts : List Task), parseFileTasks lines = some ts →
       ts.map Task.ID = List.range' 1 ts.length) ∧
    (∀ (term : String) (m : Model),
       (applyFilter term m).filteredNodes.Sublist m.nodes) := by
  constructor
  · intro lines ts h
    unfold parseFileTasks at h
    cases hr : runParse initPState lines with
    | none => rw [hr] at h; exact absurd h (by simp)
    | some st =>
      rw [hr] at h
      simp at h
      subst h
      obtain ⟨h1, h2, h3⟩ := runParse_ids lines initPState st rfl
        (by intro t ht; simp [initPState] at ht) rfl hr
      unfold finalizeTasks
      cases hc : st.currentTask with
      | none => exact h1
      | some t =>
        simp only [List.map_append, List.length_append, List.map_cons,
          List.map_nil, List.length_cons, List.length_nil]
        rw [h1, (flushDiff_fields t st.diffLines).1, h2 t hc, List.range'_1_concat]
        simp [Nat.add_comm]
  · intro term m
    by_cases ht : goToLower term = ""
    · simp [applyFilter, rebuildFlatNodes, Model.filteredNodes, ht]
    · simp [applyFilter, rebuildFlatNodes, Model.filteredNodes, ht, List.filter_sublist]

/-- Witness for C4: concrete IDs from `demoLines` and a concrete filter. -/
theorem C4_ids_and_filter_order_witness :
    demoParsed.map Task.ID = List.range' 1 demoParsed.length ∧
    (applyFilter "beta" mAB).filteredNodes.Sublist mAB.nodes :=
  ⟨C4_ids_and_filter_order.1 demoLines demoParsed (by decide),
   C4_ids_and_filter_order.2 "beta" mAB⟩

/-- Invariant transport for the status domain. -/
theorem runParse_status (lines : List String) :
    ∀ (s s' : PState),
      (∀ t ∈ s.tasks, t.Status ∈ parserStatuses) →
      (∀ t, s.currentTask = some t → t.Status ∈ parserStatuses) →
      runParse s lines = some s' →
      (∀ t ∈ s'.tasks, t.Status ∈ parserStatuses) ∧
      (∀ t, s'.currentTask = some t → t.Status ∈ parserStatuses) := by
  have hsub : ∀ x : String, x ∈ (["ok", "changed", "skipping", "failed"] : List String) →
      x ∈ parserStatuses := by decide
  induction lines with
  | nil =>
    intro s s' h1 h2 hr
    simp only [runParse, Option.some.injEq] at hr
    subst hr
    exact ⟨h1, h2⟩
  | cons l ls ih =>
    intro s s' h1 h2 hr
    simp only [runParse] at hr
    cases hp : processLine s l with
    | none => rw [hp] at hr; exact absurd hr (by simp)
    | some s1 =>
      rw [hp] at hr
      by_cases hh : goHasPrefix l "TASK [" = true
      · cases ht : taskHeaderName l with
        | none =>
          rw [processLine, if_pos hh, ht] at hp
          exact absurd hp (by simp)
        | some name =>
          rw [processLine_header hh ht] at hp
          injection hp with hp
          subst hp
          refine ih _ _ ?_ ?_ hr
          · intro u hu
            simp only at hu
            cases hc : s.currentTask with
            | none => rw [hc] at hu; exact h1 u hu
            | some t =>
              rw [hc] at hu
              rcases List.mem_append.mp hu with hmem | hmem
              · exact h1 u hmem
              · rcases List.mem_singleton.mp hmem with rfl
                rw [(flushDiff_fields t s.diffLines).2.2.2.1]
                exact h2 t hc
          · intro u hu
            simp only [Option.some.injEq] at hu
            subst hu
            simp [newTask, parserStatuses]
      · have hh' : goHasPrefix l "TASK [" = false := by
          cases hb : goHasPrefix l "TASK [" with
          | false => rfl
          | true => exact absurd hb hh
        cases hc : s.currentTask with
        | none =>
          rw [(processLine_nonheader hh').1 hc] at hp
          injection hp with hp
          subst hp
          exact ih _ _ h1 h2 hr
        | some t0 =>
          rw [(processLine_nonheader hh').2 t0 hc] at hp
          injection hp with hp
          subst hp
          refine ih _ _ (by simpa using h1) ?_ hr
          intro u hu
          simp only [Option.some.injEq] at hu
          subst hu
          rcases (updateTask_core s.inDiffSection s.diffLines t0 l).2.2.2.1 with heq | hmem
          · rw [heq]; exact h2 t0 hc
          · exact hsub _ hmem

/-- C10.  Every parsed Task has a Status in
`{unknown, ok, changed, skipping, failed}`; in particular the value
`"fatal"` is never assigned. -/
theorem C10_status_domain :
    ∀ (lines : List String) (ts : List Task), parseFileTasks lines = some ts →
      ∀ t ∈ ts, t.Status ∈ parserStatuses ∧ t.Status ≠ "fatal" := by
  have hnf : ∀ x ∈ parserStatuses, x ≠ "fatal" := by decide
  intro lines ts h t htm
  unfold parseFileTasks at h
  cases hr : runParse initPState lines with
  | none => rw [hr] at h; exact absurd h (by simp)
  | some st =>
    rw [hr] at h
    simp at h
    subst h
    obtain ⟨h1, h2⟩ := runParse_status lines initPState st
      (by intro u hu; simp [initPState] at hu)
      (by intro u hu; simp [initPState] at hu) hr
    unfold finalizeTasks at htm
    have hmem : t.Status ∈ parserStatuses := by
      cases hc : st.currentTask with
      | none => rw [hc] at htm; exact h1 t htm
      | some u =>
        rw [hc] at htm
        rcases List.mem_append.mp htm with hm | hm
        · exact h1 t hm
        · rcases List.mem_singleton.mp hm with rfl
          rw [(flushDiff_fields u st.diffLines).2.2.2.1]
          exact h2 u hc
    exact ⟨hmem, hnf _ hmem⟩

/-- Witness for C10 at the first task parsed from `demoLines`. -/
theorem C10_status_domain_witness :
    ({ ID := 1, Description := "Install pkg", StartTime := GoTime.zero
     , Status := "ok", Host := "hostA", Path := "", Diff := ""
     , RawText := "TASK [Install pkg] ****\nok: [hostA]\n" } : Task).Status ∈ parserStatuses ∧
    ({ ID := 1, Description := "Install pkg", StartTime := GoTime.zero
     , Status := "ok", Host := "hostA", Path := "", Diff := ""
     , RawText := "TASK [Install pkg] ****\nok: [hostA]\n" } : Task).Status ≠ "fatal" :=
  C10_status_domain demoLines demoParsed (by decide) _ (by decide)

theorem cleanBlock_snoc {b : List String} (hb : b ≠ []) (l : String) :
    cleanBlock (b ++ [l]) = (cleanBlock b && cleanLine l) := by
  cases b with
  | nil => exact absurd rfl hb
  | cons x xs => simp [cleanBlock, List.all_append]

/-- Invariant transport for the clean-block property: a task whose block
contains (after the header) only lines matching neither a status pattern
nor the started-TASK pattern keeps `Status = "unknown"` and `Host = ""`. -/
theorem runParse_clean (lines : List String) :
    ∀ (s : PState) (p : List (List String) × Option (List String)) (s' : PState),
      List.Forall₂ (fun (t : Task) (b : List String) =>
        cleanBlock b = true → t.Status = "unknown" ∧ t.Host = "") s.tasks p.1 →
      (s.currentTask = none ↔ p.2 = none) →
      (∀ t b, s.currentTask = some t → p.2 = some b →
        b ≠ [] ∧ (cleanBlock b = true → t.Status = "unknown" ∧ t.Host = "")) →
      runParse s lines = some s' →
      List.Forall₂ (fun (t : Task) (b : List String) =>
        cleanBlock b = true → t.Status = "unknown" ∧ t.Host = "")
        s'.tasks (lines.foldl specBlocksStep p).1 ∧
      (s'.currentTask = none ↔ (lines.foldl specBlocksStep p).2 = none) ∧
      (∀ t b, s'.currentTask = some t → (lines.foldl specBlocksStep p).2 = some b →
        b ≠ [] ∧ (cleanBlock b = true → t.Status = "unknown" ∧ t.Host = "")) := by
  induction lines with
  | nil =>
    intro s p s' h1 h2 h3 hr
    simp only [runParse, Option.some.injEq] at hr
    subst hr
    exact ⟨h1, h2, h3⟩
  | cons l ls ih =>
    intro s p s' h1 h2 h3 hr
    simp only [runParse] at hr
    cases hp : processLine s l with
    | none => rw [hp] at hr; exact absurd hr (by simp)
    | some s1 =>
      rw [hp] at hr
      simp only [List.foldl_cons]
      by_cases hh : goHasPrefix l "TASK [" = true
      · have hstep : specBlocksStep p l = (p.1 ++ p.2.toList, some [l]) := by
          simp [specBlocksStep, isHeaderLine, hh]
        rw [hstep]
        cases ht : taskHeaderName l with
        | none =>
          rw [processLine, if_pos hh, ht] at hp
          exact absurd hp (by simp)
        | some name =>
          rw [processLine_header hh ht] at hp
          injection hp with hp
          subst hp
          refine ih _ _ _ ?_ ?_ ?_ hr
          · cases hc : s.currentTask with
            | none =>
              have hp2 : p.2 = none := h2.mp hc
              simpa [hc, hp2] using h1
            | some t =>
              cases hpp : p.2 with
              | none => exact absurd (h2.mpr hpp) (by simp [hc])
              | some b =>
                simp only [hc, hpp, Option.toList_some]
                refine List.rel_append h1 ?_
                refine List.Forall₂.cons ?_ List.Forall₂.nil
                intro hcb
                obtain ⟨-, himp⟩ := h3 t b hc hpp
                obtain ⟨hs, hhost⟩ := himp hcb
                exact ⟨((flushDiff_fields t s.diffLines).2.2.2.1).trans hs,
                  ((flushDiff_fields t s.diffLines).2.2.2.2).trans hhost⟩
          · simp
          · intro t b htc hbc
            simp only [Option.some.injEq] at htc hbc
            subst htc
            subst hbc
            exact ⟨by simp, fun _ => ⟨rfl, rfl⟩⟩
      · have hh' : goHasPrefix l "TASK [" = false := by
          cases hb : goHasPrefix l "TASK [" with
          | false => rfl
          | true => exact absurd hb hh
        have hstep : specBlocksStep p l =
            (match p.2 with | none => p | some b => (p.1, some (b ++ [l]))) := by
          simp [specBlocksStep, isHeaderLine, hh']
        cases hc : s.currentTask with
        | none =>
          have hp2 : p.2 = none := h2.mp hc
          rw [(processLine_nonheader hh').1 hc] at hp
          injection hp with hp
          subst hp
          rw [hstep, hp2]
          exact ih _ _ _ h1 h2 h3 hr
        | some t0 =>
          cases hpp : p.2 with
          | none => exact absurd (h2.mpr hpp) (by simp [hc])
          | some b =>
            rw [(processLine_nonheader hh').2 t0 hc] at hp
            injection hp with hp
            subst hp
            rw [hstep, hpp]
            obtain ⟨hbne, himp⟩ := h3 t0 b hc hpp
            refine ih _ _ _ (by simpa using h1) (by simp) ?_ hr
            intro u b1 huc hbc
            simp only [Option.some.injEq] at huc hbc
            subst huc
            subst hbc
            refine ⟨by simp, ?_⟩
            intro hcb
            rw [cleanBlock_snoc hbne] at hcb
            rw [Bool.and_eq_true] at hcb
            obtain ⟨hcb1, hcl⟩ := hcb
            obtain ⟨hs, hhost⟩ := himp hcb1
            obtain ⟨hps, hph⟩ :=
              (updateTask_core s.inDiffSection s.diffLines t0 l).2.2.2.2 hcl
            exact ⟨hps.trans hs, hph.trans hhost⟩

/-- C8 (amended).  A task block none of whose lines after the header
matches a status pattern or the started-TASK pattern yields
`Status = "unknown"` and `Host = ""`; equivalently, `Host` stays empty
until a status line or a `[started TASK: … on …]` line is seen. -/
theorem C8_unknown_block_amended :
    ∀ (lines : List String) (ts : List Task), parseFileTasks lines = some ts →
      List.Forall₂ (fun (t : Task) (b : List String) =>
        cleanBlock b = true → t.Status = "unknown" ∧ t.Host = "")
        ts (specBlocks lines) := by
  intro lines ts h
  unfold parseFileTasks at h
  cases hr : runParse initPState lines with
  | none => rw [hr] at h; exact absurd h (by simp)
  | some st =>
    rw [hr] at h
    simp at h
    subst h
    obtain ⟨h1, h2, h3⟩ := runParse_clean lines initPState ([], none) st
      List.Forall₂.nil (by simp [initPState]) (by intro t b ht; simp [initPState] at ht) hr
    unfold specBlocks finalizeTasks
    cases hc : st.currentTask with
    | none =>
      have hp2 : (List.foldl specBlocksStep ([], none) lines).2 = none := h2.mp hc
      simpa [hp2] using h1
    | some t =>
      cases hpp : (List.foldl specBlocksStep ([], none) lines).2 with
      | none => exact absurd (h2.mpr hpp) (by simp [hc])
      | some b =>
        simp only [hpp, Option.toList_some]
        refine List.rel_append h1 ?_
        refine List.Forall₂.cons ?_ List.Forall₂.nil
        intro hcb
        obtain ⟨-, himp⟩ := h3 t b hc hpp
        obtain ⟨hs, hhost⟩ := himp hcb
        exact ⟨((flushDiff_fields t st.diffLines).2.2.2.1).trans hs,
          ((flushDiff_fields t st.diffLines).2.2.2.2).trans hhost⟩

/-- Witness for the amended C8 at the concrete input `demoLinesClean`. -/
theorem C8_unknown_block_amended_witness :
    List.Forall₂ (fun (t : Task) (b : List String) =>
      cleanBlock b = true → t.Status = "unknown" ∧ t.Host = "")
      demoParsedClean (specBlocks demoLinesClean) :=
  C8_unknown_block_amended demoLinesClean demoParsedClean (by decide)

/-- Counterexample to C8 as stated: a `[started TASK: … on …]` line sets
`Host` although no status line is ever seen (the Status stays
`"unknown"`), so a task block without a status line need not keep
`Host = ""`. -/
theorem C8_unknown_block_cex :
    ((parseFileTasks ["TASK [t] ****", "[started TASK: t on hostX]"]).getD []).map
      (fun t => (t.Status, t.Host)) = [("unknown", "hostX")] := by decide

/-- C1.  Behaviour of the code at the input where a status line terminates
an open diff block: the diff is flushed into `Task.Diff`, but the
terminating line is dropped without being re-dispatched, so `Status` stays
`"unknown"` and `Host` stays empty instead of being set from that line. -/
theorem C1_diff_status_line_behavior :
    parseFileTasks ["TASK [t] ****", "--- before: x", "ok: [h1]"] =
      some [{ ID := 1, Description := "t", StartTime := GoTime.zero
            , Status := "unknown", Host := "", Path := ""
            , Diff := "--- before: x"
            , RawText := "TASK [t] ****\n--- before: x\nok: [h1]\n" }] := by decide

/-- Counterexample to C2 as stated: `ParseFile` also fails when the
`debug.log` sink cannot be opened, although the input source was opened
fine and no read error occurred. -/
theorem C2_error_iff_cex :
    ParseFile true false [] false = ParseResult.err "error opening debug log file" := by
  decide

/-- C2 (amended).  On inputs where no header line panics, `ParseFile`
returns an error exactly when opening the input, opening the `debug.log`
sink, or reading fails; no line content produces an error, and a success
implies all three I/O steps succeeded (so no partial list accompanies an
error). -/
theorem C2_error_iff_amended :
    ∀ (openOk debugOk : Bool) (lines : List String) (scanErr : Bool),
      (runParse initPState lines).isSome →
      ((ParseFile openOk debugOk lines scanErr).isErrR =
        (!openOk || !debugOk || scanErr)) ∧
      (∀ ts, ParseFile openOk debugOk lines scanErr = .ok ts →
        openOk = true ∧ debugOk = true ∧ scanErr = false) := by
  intro openOk debugOk lines scanErr hs
  obtain ⟨st, hst⟩ := Option.isSome_iff_exists.mp hs
  cases openOk <;> cases debugOk <;> cases scanErr <;>
    simp [ParseFile, hst, ParseResult.isErrR]

/-- Witness for the amended C2 at a concrete environment and input. -/
theorem C2_error_iff_amended_witness :
    ((ParseFile true true demoLines false).isErrR = (!true || !true || false)) ∧
    (∀ ts, ParseFile true true demoLines false = .ok ts →
      true = true ∧ true = true ∧ false = false) :=
  C2_error_iff_amended true true demoLines false (by decide)

theorem modifyIdx_getElem (f : TreeNode → TreeNode) :
    ∀ (l : List TreeNode) (i : Nat), (modifyIdx f i l)[i]? = l[i]?.map f := by
  intro l
  induction l with
  | nil => intro i; cases i <;> simp [modifyIdx]
  | cons n ns ih =>
    intro i
    cases i with
    | zero => simp [modifyIdx]
    | succ j => simpa [modifyIdx] using ih j

/-- Toggling through the flat-node pointer hits the full node list exactly
when the filtered slice aliases it. -/
theorem toggleSelected_nodes (m : Model) (hfil : m.filtered = none)
    (hpos : 0 < m.flatNodes.length) :
    (toggleSelected m).nodes = modifyIdx toggleNode m.selected m.nodes ∧
    (toggleSelected m).filtered = none := by
  obtain ⟨nodes, filtered, flat, sel, cnt, size, y, hgt, cl⟩ := m
  simp only at hfil
  subst hfil
  simp [toggleSelected, rebuildFlatNodes, Model.filteredNodes, hpos]

/-- C5.  Filtering is pure and idempotent: applying `applyFilter` twice
with the same term equals applying it once, and the full node list is
never mutated. -/
theorem C5_filter_pure_idempotent :
    ∀ (term : String) (m : Model),
      applyFilter term (applyFilter term m) = applyFilter term m ∧
      (applyFilter term m).nodes = m.nodes := by
  intro term m
  obtain ⟨nodes, filtered, flat, sel, cnt, size, y, hgt, cl⟩ := m
  by_cases ht : goToLower term = ""
  · simp [applyFilter, rebuildFlatNodes, Model.filteredNodes, ht]
    split_ifs <;> simp_all
  · simp [applyFilter, rebuildFlatNodes, Model.filteredNodes, ht]
    split_ifs <;> simp_all

/-- Counterexample to C6 as stated: with two surviving nodes and the
selection at index 1, `applyFilter` keeps `selected = 1` (it only clamps),
although it does reset the scroll offset to 0. -/
theorem C6_filter_reset_cex :
    (applyFilter "unknown" mSel1).selected = 1 ∧
    (applyFilter "unknown" mSel1).nodesViewport.yOffset = 0 := by decide

/-- C6 (amended).  `applyFilter` recomputes the filtered list from the
full node list, rebuilds the flat sequence, and resets the scroll offset
to 0; the selected index is not reset but clamped into the bounds of the
new flat sequence (0 when it is empty). -/
theorem C6_filter_reset_amended :
    ∀ (term : String) (m : Model),
      (applyFilter term m).nodesViewport.yOffset = 0 ∧
      (applyFilter term m).filteredNodes =
        (if goToLower term = "" then m.nodes
         else m.nodes.filter (nodeMatches (goToLower term))) ∧
      (applyFilter term m).flatNodes =
        (applyFilter term m).filteredNodes.map (fun n => FlatNode.mk n 0) ∧
      (applyFilter term m).selected =
        (if (applyFilter term m).flatNodes.length = 0 then 0
         else min m.selected ((applyFilter term m).flatNodes.length - 1)) := by
  intro term m
  obtain ⟨nodes, filtered, flat, sel, cnt, size, y, hgt, cl⟩ := m
  by_cases ht : goToLower term = ""
  · simp [applyFilter, rebuildFlatNodes, Model.filteredNodes, ht]
    split_ifs <;> simp_all <;> omega
  · simp [applyFilter, rebuildFlatNodes, Model.filteredNodes, ht]
    split_ifs <;> simp_all <;> omega

/-- Counterexample to C7 as stated: toggling a task while a filter is
active stores the expansion on a filtered copy; after excluding the task
and clearing the filter, the task reappears with `IsExpanded = false`.
The first conjunct shows the toggle did take effect on the filtered view. -/
theorem C7_expansion_cex :
    ((toggleSelected (applyFilter "a" mAB)).filteredNodes.map
        (fun n => (n.ID, n.IsExpanded))) = [(1, true), (2, false)] ∧
    ((applyFilter "" (applyFilter "beta" (toggleSelected (applyFilter "a" mAB)))).filteredNodes.map
        (fun n => (n.ID, n.IsExpanded))) = [(1, false), (2, false)] := by decide

/-- C7 (amended).  When the toggle happens while no filter is active (the
filtered slice aliases the full list), the expansion is stored on the full
node list, so applying a filter that excludes the task and then clearing
the filter brings the task back with `IsExpanded` still true; the same
task record (same stable ID) is recovered at its original position. -/
theorem C7_expansion_amended :
    ∀ (m : Model) (i : Nat) (term : String) (n0 : TreeNode),
      m.filtered = none →
      m.flatNodes = m.nodes.map (fun n => FlatNode.mk n 0) →
      m.selected = i →
      m.nodes[i]? = some n0 →
      goToLower term ≠ "" →
      nodeMatches (goToLower term) (toggleNode n0) = false →
      (applyFilter "" (applyFilter term (toggleSelected m))).filteredNodes[i]? =
        some (toggleNode n0) ∧
      (toggleNode n0).ID = n0.ID := by
  intro m i term n0 hfil hflat hsel hget hterm hexcl
  have hlen : i < m.nodes.length := by
    by_contra hcon
    push_neg at hcon
    rw [List.getElem?_eq_none hcon] at hget
    cases hget
  have hpos : 0 < m.flatNodes.length := by
    rw [hflat, List.length_map]
    omega
  obtain ⟨hnodes, hfil2⟩ := toggleSelected_nodes m hfil hpos
  refine ⟨?_, rfl⟩
  have h1 : (applyFilter term (toggleSelected m)).nodes = (toggleSelected m).nodes := rfl
  have h2 : (applyFilter "" (applyFilter term (toggleSelected m))).filtered = none := by
    have : goToLower "" = "" := rfl
    simp [applyFilter, rebuildFlatNodes, this]
  have h3 : (applyFilter "" (applyFilter term (toggleSelected m))).nodes =
      (toggleSelected m).nodes := rfl
  rw [Model.filteredNodes, h2, Option.getD_none, h3, hnodes, hsel]
  rw [modifyIdx_getElem, hget]
  rfl

/-- Witness for the amended C7 at the concrete two-task model. -/
theorem C7_expansion_amended_witness :
    (applyFilter "" (applyFilter "beta" (toggleSelected mAB))).filteredNodes[0]? =
      some (toggleNode nodeAlpha) ∧
    (toggleNode nodeAlpha).ID = nodeAlpha.ID :=
  C7_expansion_amended mAB 0 "beta" nodeAlpha rfl (by decide) rfl (by decide)
    (by decide) (by decide)

/-- Counterexample to C9 as stated: in `m9Glob` the only expanded node
lies at flat index 19, far below the window `[0, 10)`; no expanded node
lies between the offset (0) and the selection (6), and the new selection 6
is inside the window, yet moving down still shifts the offset to 1 because
the code uses the global expanded count. -/
theorem C9_offset_cex :
    countExpandedBetween m9Glob.flatNodes 0 6 = 0 ∧
    m9Glob.nodesViewport.yOffset = 0 ∧
    m9Glob.nodesViewport.height = 10 ∧
    (moveDown m9Glob).selected = 6 ∧
    (moveDown m9Glob).nodesViewport.yOffset = 1 := by decide

/-- C9 (amended).  With viewport height 10 and no expanded nodes, moving
the selection down to flat index 15 yields offset `6 = 15 - 10 + 1`; and
in general the adjustment accounts for the detail rows of ALL expanded
nodes in the flattened sequence (the cached global count times the fixed
detail-row size), regardless of whether they lie between the offset and
the selection. -/
theorem C9_offset_adjust_amended :
    ((iterApply moveDown 15 m9ScenC).selected = 15 ∧
     (iterApply moveDown 15 m9ScenC).nodesViewport.yOffset = 6) ∧
    (∀ (m : Model),
      m.expandedNodeCount = countExpandedBetween m.flatNodes 0 m.flatNodes.length →
      m.selected < m.flatNodes.length - 1 →
      m.nodesViewport.yOffset + m.nodesViewport.height ≤
        m.selected + 1 + m.expandedNodeCount * m.expandedNodeSize →
      m.nodesViewport.height ≤ m.selected + 1 + m.expandedNodeCount * m.expandedNodeSize + 1 →
      m.selected + 1 + m.expandedNodeCount * m.expandedNodeSize + 1 ≤
        m.nodesViewport.contentLines →
      m.selected + 1 + m.expandedNodeCount * m.expandedNodeSize + 1 ≤
        renderLineCount m.flatNodes + 1 →
      (moveDown m).selected = m.selected + 1 ∧
      (moveDown m).nodesViewport.yOffset =
        m.selected + 1 +
          countExpandedBetween m.flatNodes 0 m.flatNodes.length * m.expandedNodeSize +
          1 - m.nodesViewport.height) := by
  constructor
  · set_option maxRecDepth 4000 in decide
  · intro m h1 h2 h3 h4 h5 h6
    obtain ⟨nodes, filtered, flat, sel, cnt, size, y, hgt, cl⟩ := m
    simp only at h1 h2 h3 h4 h5 h6
    rw [← h1]
    simp only [moveDown, Viewport.setYOff] at *
    rw [if_pos h2, if_pos (by omega)]
    constructor
    · rfl
    · simp only []
      split_ifs <;> omega

/-- Witness for the amended C9: the global-count branch applied to the
concrete model `m9Glob` (one expanded node at flat index 19, selection
moving 5 → 6), together with the Scenario C computation. -/
theorem C9_offset_adjust_amended_witness :
    ((iterApply moveDown 15 m9ScenC).selected = 15 ∧
     (iterApply moveDown 15 m9ScenC).nodesViewport.yOffset = 6) ∧
    ((moveDown m9Glob).selected = m9Glob.selected + 1 ∧
     (moveDown m9Glob).nodesViewport.yOffset =
       m9Glob.selected + 1 +
         countExpandedBetween m9Glob.flatNodes 0 m9Glob.flatNodes.length *
           m9Glob.expandedNodeSize +
         1 - m9Glob.nodesViewport.height) :=
  ⟨C9_offset_adjust_amended.1,
   C9_offset_adjust_amended.2 m9Glob (by decide) (by decide) (by decide)
     (by decide) (by decide) (by decide)⟩

end AnsibleLogsView
